import Mathlib

/-!
Verification of the Q&A extraction state machine and narration pipeline of
`src/voice.py` (an interview-rehearsal script).  Python strings are modelled
as `List Char`; each Python string operation used by the source
(`str.strip`, `str.startswith`, `str.replace`, `str.split("\n")`) is given a
faithful executable counterpart, and the extraction loop / simulation loop
are embedded as pure functions over explicit state.
-/

/-- Python strings are modelled as lists of characters. -/
abbrev Str := List Char

/-- The whitespace test of Python's `str.strip()`, restricted to the ASCII
whitespace characters (the inputs in play are ASCII). -/
def pyIsSpace (c : Char) : Bool :=
  c = ' ' || c = '\t' || c = '\n' || c = '\r' || c = '\x0b' || c = '\x0c'

/-- Left trim: drop leading whitespace. -/
def ltrim (s : Str) : Str := s.dropWhile pyIsSpace

/-- Right trim: drop trailing whitespace. -/
def rtrim (s : Str) : Str := (s.reverse.dropWhile pyIsSpace).reverse

/-- Python's `s.strip()`: drop whitespace from both ends. -/
def pyStrip (s : Str) : Str := rtrim (ltrim s)

/-- Python's `s.startswith(pre)` (arguments: string, then the candidate
leading substring). -/
def pyStartsWith : Str → Str → Bool
  | _, [] => true
  | [], _ :: _ => false
  | c :: s, m :: ms => c = m && pyStartsWith s ms

/-- Python's `s.replace(m1m2, "")` for a two-character pattern: every
non-overlapping occurrence of the two-character sequence `m1,m2` is removed,
scanning left to right.  This mirrors `line.replace("Q:", "")` /
`line.replace("A:", "")` in `src/voice.py` (lines 85 and 87), which remove
EVERY occurrence of the marker, not just a leading one. -/
def pyReplace2 (m1 m2 : Char) : Str → Str
  | a :: b :: rest =>
    if a = m1 && b = m2 then pyReplace2 m1 m2 rest
    else a :: pyReplace2 m1 m2 (b :: rest)
  | s => s

/-- Whether the two-character sequence `m1,m2` occurs anywhere in `s`. -/
def hasMarker (m1 m2 : Char) : Str → Bool
  | a :: b :: rest => (a = m1 && b = m2) || hasMarker m1 m2 (b :: rest)
  | _ => false

/-- Python's `text.split("\n")`: split at every newline, keeping empty
pieces (so a trailing newline yields a final empty line). -/
def splitLines : Str → List Str
  | [] => [[]]
  | c :: cs =>
    if c = '\n' then [] :: splitLines cs
    else
      match splitLines cs with
      | [] => [[c]]
      | l :: ls => (c :: l) :: ls

/-- A line is a question line iff its trimmed form starts with `Q:`
(`line.strip().startswith("Q:")`, `src/voice.py` line 81). -/
def isQLine (l : Str) : Bool := pyStartsWith (pyStrip l) ['Q', ':']

/-- A line is an answer line iff its trimmed form starts with `A:`
(`src/voice.py` line 86). -/
def isALine (l : Str) : Bool := pyStartsWith (pyStrip l) ['A', ':']

/-- State of the extraction loop of `src/voice.py` lines 79-91:
the accumulated output list `qa_pairs` and the accumulators `q`, `a`. -/
structure ExtState where
  pairs : List (Str × Str)
  q : Str
  a : Str
deriving DecidableEq

/-- One iteration of the extraction loop (`src/voice.py` lines 80-89):

    if line.strip().startswith("Q:"):
        if q and a:
            qa_pairs.append((q.strip(), a.strip()))
            q, a = "", ""
        q = line.replace("Q:", "").strip()
    elif line.strip().startswith("A:"):
        a += line.replace("A:", "").strip() + " "
    elif a:
        a += line.strip() + " "
-/
def qaStep (s : ExtState) (line : Str) : ExtState :=
  if isQLine line then
    let s1 := if s.q ≠ [] ∧ s.a ≠ [] then
        ExtState.mk (s.pairs ++ [(pyStrip s.q, pyStrip s.a)]) [] []
      else s
    { s1 with q := pyStrip (pyReplace2 'Q' ':' line) }
  else if isALine line then
    { s with a := s.a ++ (pyStrip (pyReplace2 'A' ':' line) ++ [' ']) }
  else if s.a ≠ [] then
    { s with a := s.a ++ (pyStrip line ++ [' ']) }
  else s

/-- The final flush after the loop (`src/voice.py` lines 90-91):

    if q and a:
        qa_pairs.append((q.strip(), a.strip()))
-/
def qaFinish (s : ExtState) : List (Str × Str) :=
  if s.q ≠ [] ∧ s.a ≠ [] then s.pairs ++ [(pyStrip s.q, pyStrip s.a)] else s.pairs

/-- Extraction over an explicit list of lines. -/
def qaPairsOfLines (lines : List Str) : List (Str × Str) :=
  qaFinish (lines.foldl qaStep (ExtState.mk [] [] []))

/-- The full extractor: `text.split("\n")` fed through the loop and the
final flush (`src/voice.py` lines 79-91). -/
def qaPairs (text : Str) : List (Str × Str) :=
  qaPairsOfLines (splitLines text)

/-! ## Narration pipeline model

`speak` (`src/voice.py` lines 100-117) creates a temp file, synthesizes with
gTTS, and only then enters a `try: ... except: warn finally: os.remove`
block around the decode / speed-up / export / playback steps.  Each point
that can raise is represented by a boolean failure flag; the embedding
follows the control flow branch by branch. -/

/-- Failure profile of one `speak` call: which of its fallible steps raises.
`gttsFails` covers `gTTS(text)` / `tts.save(fp.name)` (lines 103-104, before
the `try`); the remaining flags cover the steps inside the `try`
(lines 106-113). -/
structure SpeakEnv where
  gttsFails : Bool
  decodeFails : Bool
  speedupFails : Bool
  exportFails : Bool
  playFails : Bool
deriving DecidableEq

/-- How one `speak` call ends: audio rendered, audio skipped with a caught
exception and a warning, or an uncaught exception propagating to the
caller. -/
inductive SpeakRes where
  | played
  | warned
  | raised
deriving DecidableEq

/-- Observable outcome of one `speak` call: how it ended, whether the
temporary mp3 file was removed before control left `speak`, and whether a
warning was shown. -/
structure SpeakOutcome where
  res : SpeakRes
  tempDeleted : Bool
  warnShown : Bool
deriving DecidableEq

/-- `speak` (`src/voice.py` lines 100-117).  A gTTS failure happens before
the `try`, so nothing catches it and the `finally: os.remove(fp.name)` is
never reached; a failure of any step inside the `try` is caught
(`st.warning`), and `finally` removes the temp file on those paths and on
success. -/
def speak (e : SpeakEnv) : SpeakOutcome :=
  if e.gttsFails then ⟨.raised, false, false⟩
  else if e.decodeFails then ⟨.warned, true, true⟩
  else if e.speedupFails then ⟨.warned, true, true⟩
  else if e.exportFails then ⟨.warned, true, true⟩
  else if e.playFails then ⟨.warned, true, true⟩
  else ⟨.played, true, false⟩

/-- How one `speak_ai` call ends.  There is no `raised` alternative:
in `src/voice.py` lines 119-140 every fallible statement sits inside the
`try`, and the unavailable case returns after a warning. -/
inductive AiRes where
  | played
  | warnedUnavailable
  | warnedError
deriving DecidableEq

/-- `speak_ai` (`src/voice.py` lines 119-140): warn-and-return when the
library is unavailable; otherwise any exception from `set_api_key` /
`generate` / playback is caught and warned.  Note it never calls `speak`. -/
def speak_ai (available : Bool) (fails : Bool) : AiRes :=
  if !available then .warnedUnavailable
  else if fails then .warnedError
  else .played

/-- Process-wide voice configuration: the `use_ai_voice` toggle (line 66)
and the import-time `ELEVENLABS_AVAILABLE` flag (lines 43-47). -/
structure VoiceCfg where
  useAiVoice : Bool
  elevenLabsAvailable : Bool
deriving DecidableEq

/-- Failure profile of narrating one utterance: the ElevenLabs failure flag
(only relevant on the premium path) and the `speak` failure profile (only
relevant on the standard path). -/
structure UttEnv where
  aiFails : Bool
  std : SpeakEnv
deriving DecidableEq

/-- Which provider narrated an utterance, and how it went. -/
inductive UttOutcome where
  | premium (r : AiRes)
  | standard (r : SpeakOutcome)
deriving DecidableEq

/-- The per-utterance provider dispatch of the simulation loop
(`src/voice.py` lines 149-152 and 161-164):

    if use_ai_voice and ELEVENLABS_AVAILABLE:
        speak_ai(...)
    else:
        speak(...)
-/
def narrateUtterance (cfg : VoiceCfg) (u : UttEnv) : UttOutcome :=
  if cfg.useAiVoice && cfg.elevenLabsAvailable then
    .premium (speak_ai cfg.elevenLabsAvailable u.aiFails)
  else
    .standard (speak u.std)

/-- Whether the Standard variant (`speak`) was the one invoked. -/
def usedStandard : UttOutcome → Bool
  | .standard _ => true
  | .premium _ => false

/-- Whether narrating the utterance let an exception escape (aborting the
enclosing Streamlit script run, i.e. the session loop). -/
def uttAborts : UttOutcome → Bool
  | .standard r => match r.res with | .raised => true | _ => false
  | .premium _ => false

/-- The progress value emitted after finishing the pair at 0-based index
`i = k - 1`: `int(((i + 1) / num_questions) * 100)` (`src/voice.py` line
166), i.e. TRUNCATION of `100*k/n`.  Modelled with exact (rational)
arithmetic as `100 * k / n` in `Nat`; for the slider-permitted range
`3 ≤ n ≤ 15`, `1 ≤ k ≤ n`, the IEEE-double computation of the source
rounds to the same integer (every exact multiple of `1/n` is more than
`10^-13` away from the nearest unequal integer boundary, far beyond the
accumulated rounding error, and the exact-integer cases all round up to
the integer), so the rational model is faithful there. -/
def progressValue (k n : Nat) : Nat := 100 * k / n

/-- The sequence of progress values the simulation loop emits for a session
with `num_questions = n` over a pool of `t` extracted pairs (the loop runs
over `qa_pairs[:n]`, hence `min n t` iterations). -/
def progressEmissions (n t : Nat) : List Nat :=
  (List.range (min n t)).map fun i => progressValue (i + 1) n

/-- `round(((i+1)/questionCount)*100)` as the spec's §4.4 step 6 words it
(round-to-nearest; stated for the non-tie case as `floor(x + 1/2)`).
This is the SPEC's formula, kept separate so it can be compared with the
source's `progressValue`. -/
def specRoundProgress (k n : Nat) : Nat := (200 * k + n) / (2 * n)

/-- Failure profile of one loop iteration: the question utterance and the
answer utterance. -/
structure StepEnv where
  qEnv : UttEnv
  aEnv : UttEnv

/-- Observable result of (the modelled part of) one session run: how many
pairs were fully processed, the progress values emitted, and whether an
uncaught exception aborted the run. -/
structure SessionRun where
  processed : Nat
  progress : List Nat
  aborted : Bool
deriving DecidableEq

/-- The simulation loop from index `i` over the remaining pairs
(`src/voice.py` lines 145-167).  Each iteration narrates the question
(line 149-152), waits, narrates the answer (lines 161-164) and emits the
progress update (line 166); an uncaught exception from either narration
ends the Streamlit script run immediately. -/
def runFrom (cfg : VoiceCfg) (envs : Nat → StepEnv) (n : Nat) :
    Nat → List (Str × Str) → SessionRun
  | _, [] => ⟨0, [], false⟩
  | i, _ :: rest =>
    if uttAborts (narrateUtterance cfg (envs i).qEnv) then ⟨0, [], true⟩
    else if uttAborts (narrateUtterance cfg (envs i).aEnv) then ⟨0, [], true⟩
    else
      let r := runFrom cfg envs n (i + 1) rest
      ⟨r.processed + 1, progressValue (i + 1) n :: r.progress, r.aborted⟩

/-- The pair list the session iterates over: `qa_pairs[:num_questions]`
(`src/voice.py` line 145). -/
def sessionPairs (pairs : List (Str × Str)) (n : Nat) : List (Str × Str) :=
  pairs.take n

/-- A full session run (`src/voice.py` lines 143-168). -/
def runSession (cfg : VoiceCfg) (envs : Nat → StepEnv)
    (pairs : List (Str × Str)) (n : Nat) : SessionRun :=
  runFrom cfg envs n 0 (sessionPairs pairs n)

/-- Modelled from the spec: claim C1 reads the extractor as keeping only
"answered" questions.  A `Q:` line is answered when some `A:` line follows
it before the next `Q:` line (or the end of input).  `specAnsweredAfter`
scans the lines after a `Q:` line; `specAnsweredCount` counts the answered
`Q:` lines of a line list.  These follow the claim's words and exist only
to be compared with the source-derived `qaPairs`. -/
def specAnsweredAfter : List Str → Bool
  | [] => false
  | l :: rest =>
    if isQLine l then false
    else if isALine l then true
    else specAnsweredAfter rest

/-- See `specAnsweredAfter`. -/
def specAnsweredCount : List Str → Nat
  | [] => 0
  | l :: rest =>
    (if isQLine l ∧ specAnsweredAfter rest then 1 else 0) + specAnsweredCount rest

/-! ## Toolkit: trim lemmas -/

theorem dropWhile_idem (p : Char → Bool) (l : Str) :
    (l.dropWhile p).dropWhile p = l.dropWhile p := by
  induction l with
  | nil => rfl
  | cons a l ih =>
    by_cases h : p a
    · simpa [List.dropWhile_cons_of_pos h] using ih
    · simp [List.dropWhile_cons_of_neg h]

theorem ltrim_idem (s : Str) : ltrim (ltrim s) = ltrim s :=
  dropWhile_idem pyIsSpace s

theorem rtrim_idem (s : Str) : rtrim (rtrim s) = rtrim s := by
  simp only [rtrim, List.reverse_reverse]
  rw [dropWhile_idem]

theorem rtrim_nil : rtrim [] = [] := rfl

theorem ltrim_cons_nospace (a : Char) (s : Str) (h : pyIsSpace a = false) :
    ltrim (a :: s) = a :: s := by
  simp [ltrim, List.dropWhile_cons, h]

theorem rtrim_cons (a : Char) (s : Str) :
    rtrim (a :: s) =
      if rtrim s = [] then (if pyIsSpace a then [] else [a]) else a :: rtrim s := by
  simp only [rtrim, List.reverse_cons]
  rw [List.dropWhile_append]
  by_cases h0 : s.reverse.dropWhile pyIsSpace = [] <;>
    by_cases ha : pyIsSpace a <;>
      simp [h0, ha, List.dropWhile, List.isEmpty_iff, List.reverse_eq_nil_iff,
        List.reverse_append]

theorem rtrim_cons_nospace (a : Char) (s : Str) (h : pyIsSpace a = false) :
    rtrim (a :: s) = a :: rtrim s := by
  rw [rtrim_cons]
  by_cases h0 : rtrim s = [] <;> simp [h0, h]

theorem rtrim_eq_nil_mem (s : Str) (h : rtrim s = []) :
    ∀ c ∈ s, pyIsSpace c = true := by
  induction s with
  | nil => intro c hc; cases hc
  | cons a s ih =>
    rw [rtrim_cons] at h
    by_cases h0 : rtrim s = []
    · rw [if_pos h0] at h
      by_cases ha : pyIsSpace a
      · intro c hc
        rw [List.mem_cons] at hc
        rcases hc with rfl | hc
        · exact ha
        · exact ih h0 c hc
      · simp [ha] at h
    · rw [if_neg h0] at h
      cases h

theorem rtrim_append_eq (xs ys : Str) :
    rtrim (xs ++ ys) = if rtrim ys = [] then rtrim xs else xs ++ rtrim ys := by
  induction xs with
  | nil =>
    by_cases h0 : rtrim ys = []
    · rw [if_pos h0, List.nil_append, h0, rtrim_nil]
    · rw [if_neg h0, List.nil_append, List.nil_append]
  | cons a xs ih =>
    by_cases h0 : rtrim ys = []
    · rw [if_pos h0, List.cons_append, rtrim_cons, ih, if_pos h0, rtrim_cons]
    · have hne : ¬ (xs ++ rtrim ys) = [] := fun hh => h0 (List.append_eq_nil.mp hh).2
      rw [if_neg h0, List.cons_append, rtrim_cons, ih, if_neg h0, if_neg hne,
        List.cons_append]

theorem ltrim_rtrim_comm (s : Str) : ltrim (rtrim s) = rtrim (ltrim s) := by
  induction s with
  | nil => rfl
  | cons a s ih =>
    by_cases ha : pyIsSpace a
    · have hlt : ltrim (a :: s) = ltrim s := by simp [ltrim, List.dropWhile_cons, ha]
      rw [rtrim_cons, hlt, ← ih]
      by_cases h0 : rtrim s = []
      · rw [if_pos h0, if_pos ha, h0]
      · rw [if_neg h0]
        simp [ltrim, List.dropWhile_cons, ha]
    · have ha' : pyIsSpace a = false := by simpa using ha
      have hlt : ltrim (a :: s) = a :: s := ltrim_cons_nospace a s ha'
      rw [rtrim_cons, hlt, rtrim_cons]
      by_cases h0 : rtrim s = []
      · rw [if_pos h0, if_neg ha]
        exact ltrim_cons_nospace a [] ha'
      · rw [if_neg h0]
        exact ltrim_cons_nospace a (rtrim s) ha'

theorem pyStrip_idem (s : Str) : pyStrip (pyStrip s) = pyStrip s := by
  simp only [pyStrip]
  rw [ltrim_rtrim_comm (ltrim s), ltrim_idem, rtrim_idem]

theorem length_dropWhile_le (p : Char → Bool) (l : Str) :
    (l.dropWhile p).length ≤ l.length := by
  induction l with
  | nil => exact Nat.le_refl 0
  | cons a l ih =>
    by_cases hp : p a
    · rw [List.dropWhile_cons_of_pos hp]
      exact Nat.le_trans ih (Nat.le_succ _)
    · rw [List.dropWhile_cons_of_neg hp]

theorem ltrim_cons_eq_self (c : Char) (t : Str) (h : ltrim (c :: t) = c :: t) :
    pyIsSpace c = false := by
  by_contra hc
  rw [Bool.not_eq_false] at hc
  rw [ltrim, List.dropWhile_cons_of_pos hc] at h
  have hle := length_dropWhile_le pyIsSpace t
  rw [h] at hle
  simp at hle

theorem rtrim_decomp (s : Str) :
    ∃ t, s = rtrim s ++ t ∧ ∀ c ∈ t, pyIsSpace c = true := by
  refine ⟨(s.reverse.takeWhile pyIsSpace).reverse, ?_, ?_⟩
  · conv_lhs => rw [← List.reverse_reverse s, ← List.takeWhile_append_dropWhile
      (p := pyIsSpace) (l := s.reverse)]
    rw [List.reverse_append]
    rfl
  · intro c hc
    rw [List.mem_reverse] at hc
    exact List.mem_takeWhile_imp hc

theorem pyStrip_parts (s : Str) (h : pyStrip s = s) : ltrim s = s ∧ rtrim s = s := by
  have hlen1 : (ltrim s).length ≤ s.length := length_dropWhile_le pyIsSpace s
  have hlen2 : (pyStrip s).length ≤ (ltrim s).length := by
    simp only [pyStrip, rtrim]
    calc ((ltrim s).reverse.dropWhile pyIsSpace).reverse.length
        = ((ltrim s).reverse.dropWhile pyIsSpace).length := List.length_reverse _
      _ ≤ (ltrim s).reverse.length := length_dropWhile_le pyIsSpace _
      _ = (ltrim s).length := List.length_reverse _
  rw [h] at hlen2
  have hlen : (ltrim s).length = s.length := le_antisymm hlen1 hlen2
  have hsplit : s.takeWhile pyIsSpace ++ ltrim s = s :=
    List.takeWhile_append_dropWhile pyIsSpace s
  have htw : (s.takeWhile pyIsSpace).length = 0 := by
    have := congrArg List.length hsplit
    rw [List.length_append, hlen] at this
    omega
  have htw' : s.takeWhile pyIsSpace = [] := List.eq_nil_of_length_eq_zero htw
  have hlt : ltrim s = s := by
    rw [htw', List.nil_append] at hsplit
    exact hsplit
  refine ⟨hlt, ?_⟩
  rw [← hlt]
  calc rtrim (ltrim s) = pyStrip s := rfl
    _ = s := h
    _ = ltrim s := hlt.symm

/-! ## Toolkit: replace and marker lemmas -/

theorem pyReplace2_nil (m1 m2 : Char) : pyReplace2 m1 m2 [] = [] := rfl

theorem pyReplace2_single (m1 m2 c : Char) : pyReplace2 m1 m2 [c] = [c] := rfl

theorem pyReplace2_cons2 (m1 m2 a b : Char) (rest : Str) :
    pyReplace2 m1 m2 (a :: b :: rest) =
      if a = m1 && b = m2 then pyReplace2 m1 m2 rest
      else a :: pyReplace2 m1 m2 (b :: rest) := rfl

theorem hasMarker_nil (m1 m2 : Char) : hasMarker m1 m2 [] = false := rfl

theorem hasMarker_single (m1 m2 c : Char) : hasMarker m1 m2 [c] = false := rfl

theorem hasMarker_cons2 (m1 m2 a b : Char) (rest : Str) :
    hasMarker m1 m2 (a :: b :: rest) =
      ((a = m1 && b = m2) || hasMarker m1 m2 (b :: rest)) := rfl

theorem pyReplace2_append_noM1 (m1 m2 : Char) (xs t : Str)
    (h : ∀ c ∈ xs, c ≠ m1) :
    pyReplace2 m1 m2 (xs ++ t) = xs ++ pyReplace2 m1 m2 t := by
  induction xs with
  | nil => rfl
  | cons x xs ih =>
    have hx : x ≠ m1 := h x (List.mem_cons_self x xs)
    have hxs : ∀ c ∈ xs, c ≠ m1 := fun c hc => h c (List.mem_cons_of_mem x hc)
    rw [List.cons_append]
    cases h2 : xs ++ t with
    | nil =>
      rcases List.append_eq_nil.mp h2 with ⟨hxs0, ht0⟩
      subst hxs0; subst ht0
      rfl
    | cons b rest =>
      rw [pyReplace2_cons2]
      have : (x = m1 && b = m2) = false := by
        simp [hx]
      rw [this]
      simp only [Bool.false_eq_true, if_false, ← h2, ih hxs, List.cons_append]

theorem pyReplace2_eq_self (m1 m2 : Char) (s : Str)
    (h : hasMarker m1 m2 s = false) :
    pyReplace2 m1 m2 s = s := by
  induction s with
  | nil => rfl
  | cons a s ih =>
    cases s with
    | nil => rfl
    | cons b rest =>
      rw [hasMarker_cons2, Bool.or_eq_false_iff] at h
      rw [pyReplace2_cons2, h.1]
      simp only [Bool.false_eq_true, if_false]
      rw [ih h.2]

theorem hasMarker_false_of_noM1 (m1 m2 : Char) (s : Str) (h : ∀ c ∈ s, c ≠ m1) :
    hasMarker m1 m2 s = false := by
  induction s with
  | nil => rfl
  | cons a s ih =>
    have ha : a ≠ m1 := h a (List.mem_cons_self a s)
    have hs : ∀ c ∈ s, c ≠ m1 := fun c hc => h c (List.mem_cons_of_mem a hc)
    cases s with
    | nil => rfl
    | cons b rest =>
      rw [hasMarker_cons2, Bool.or_eq_false_iff]
      refine ⟨by simp [ha], ih hs⟩

theorem hasMarker_append_clean (m1 m2 : Char) (xs ys : Str)
    (h : ∀ c ∈ ys, c ≠ m1 ∧ c ≠ m2) :
    hasMarker m1 m2 (xs ++ ys) = hasMarker m1 m2 xs := by
  induction xs with
  | nil =>
    rw [List.nil_append, hasMarker_nil]
    exact hasMarker_false_of_noM1 m1 m2 ys (fun c hc => (h c hc).1)
  | cons x xs ih =>
    cases xs with
    | nil =>
      rw [List.cons_append, List.nil_append, hasMarker_single]
      cases ys with
      | nil => exact hasMarker_single m1 m2 x
      | cons b rest =>
        rw [hasMarker_cons2]
        have hb : b ≠ m2 := (h b (List.mem_cons_self b rest)).2
        have hrest : hasMarker m1 m2 (b :: rest) = false :=
          hasMarker_false_of_noM1 m1 m2 (b :: rest) (fun c hc => (h c hc).1)
        simp [hb, hrest]
    | cons y xs2 =>
      rw [List.cons_append, List.cons_append, hasMarker_cons2, ← List.cons_append,
        ih, hasMarker_cons2]

theorem pyStartsWith_exists (pre : Str) : ∀ s : Str,
    pyStartsWith s pre = true → ∃ t, s = pre ++ t := by
  induction pre with
  | nil => intro s _; exact ⟨s, rfl⟩
  | cons m ms ih =>
    intro s h
    cases s with
    | nil => simp [pyStartsWith] at h
    | cons c s' =>
      rw [pyStartsWith, Bool.and_eq_true] at h
      have hc : c = m := by simpa using h.1
      rcases ih s' h.2 with ⟨t, ht⟩
      exact ⟨t, by rw [hc, ht, List.cons_append]⟩

theorem pyStartsWith_of_append (pre t : Str) : pyStartsWith (pre ++ t) pre = true := by
  induction pre with
  | nil =>
    rw [List.nil_append]
    cases t <;> rfl
  | cons m ms ih => simp [pyStartsWith, ih]

/-- Core lemma for the text a marker line contributes: when the trimmed line
starts with the two-character marker and the rest of the (trimmed) line
contains no further occurrence of that same marker, `replace`-then-`strip`
coincides with "remainder after the leading marker, trimmed". -/
theorem marker_extract_eq (m1 m2 : Char) (hm1 : pyIsSpace m1 = false)
    (hm2 : pyIsSpace m2 = false) (line : Str)
    (hpre : pyStartsWith (pyStrip line) [m1, m2] = true)
    (hnom : hasMarker m1 m2 ((pyStrip line).drop 2) = false) :
    pyStrip (pyReplace2 m1 m2 line) = pyStrip ((pyStrip line).drop 2) := by
  obtain ⟨u, hu⟩ := pyStartsWith_exists [m1, m2] (pyStrip line) hpre
  have hdecomp : line.takeWhile pyIsSpace ++ ltrim line = line :=
    List.takeWhile_append_dropWhile pyIsSpace line
  have hws : ∀ c ∈ line.takeWhile pyIsSpace, pyIsSpace c = true :=
    fun c hc => List.mem_takeWhile_imp hc
  obtain ⟨tsp, htsp, htspmem⟩ := rtrim_decomp (ltrim line)
  have hstrip : rtrim (ltrim line) = m1 :: m2 :: u := by
    simpa [pyStrip] using hu
  have ht : ltrim line = m1 :: m2 :: (u ++ tsp) := by
    rw [htsp, hstrip]
    simp
  have hdrop : (pyStrip line).drop 2 = u := by
    rw [hu]
    rfl
  have h5 : rtrim (ltrim line) = m1 :: m2 :: rtrim (u ++ tsp) := by
    rw [ht, rtrim_cons_nospace m1 _ hm1, rtrim_cons_nospace m2 _ hm2]
  have hrtr : rtrim (u ++ tsp) = u := by
    have h6 := h5.symm.trans hstrip
    simpa using h6
  have hru : rtrim u = u := by
    conv_lhs => rw [← hrtr, rtrim_idem]
    exact hrtr
  have hclean : ∀ c ∈ tsp, c ≠ m1 ∧ c ≠ m2 := by
    intro c hc
    have hcs := htspmem c hc
    constructor
    · intro he
      rw [he, hm1] at hcs
      cases hcs
    · intro he
      rw [he, hm2] at hcs
      cases hcs
  have hnomr : hasMarker m1 m2 (u ++ tsp) = false := by
    rw [hasMarker_append_clean m1 m2 u tsp hclean]
    rw [hdrop] at hnom
    exact hnom
  have hrepl_t : pyReplace2 m1 m2 (ltrim line) = u ++ tsp := by
    rw [ht, pyReplace2_cons2]
    simp only [decide_True, Bool.and_self, if_true]
    exact pyReplace2_eq_self m1 m2 (u ++ tsp) hnomr
  have hwsne : ∀ c ∈ line.takeWhile pyIsSpace, c ≠ m1 := by
    intro c hc he
    have hcs := hws c hc
    rw [he, hm1] at hcs
    cases hcs
  have hrepl : pyReplace2 m1 m2 line = line.takeWhile pyIsSpace ++ (u ++ tsp) := by
    conv_lhs => rw [← hdecomp]
    rw [pyReplace2_append_noM1 m1 m2 _ _ hwsne, hrepl_t]
  rw [hrepl, hdrop]
  have hlt : ltrim (line.takeWhile pyIsSpace ++ (u ++ tsp)) = ltrim (u ++ tsp) :=
    List.dropWhile_append_of_pos hws
  calc pyStrip (line.takeWhile pyIsSpace ++ (u ++ tsp))
      = rtrim (ltrim (u ++ tsp)) := by rw [pyStrip, hlt]
    _ = ltrim (rtrim (u ++ tsp)) := (ltrim_rtrim_comm _).symm
    _ = ltrim u := by rw [hrtr]
    _ = ltrim (rtrim u) := by rw [hru]
    _ = rtrim (ltrim u) := ltrim_rtrim_comm u
    _ = pyStrip u := rfl

/-! ## Toolkit: extraction-step shape lemmas -/

theorem qaStep_q_fin (s : ExtState) (l : Str) (hq : isQLine l = true)
    (h1 : s.q ≠ []) (h2 : s.a ≠ []) :
    qaStep s l = ExtState.mk (s.pairs ++ [(pyStrip s.q, pyStrip s.a)])
      (pyStrip (pyReplace2 'Q' ':' l)) [] := by
  rw [qaStep, if_pos hq, if_pos ⟨h1, h2⟩]

theorem qaStep_q_nofin (s : ExtState) (l : Str) (hq : isQLine l = true)
    (hnf : ¬(s.q ≠ [] ∧ s.a ≠ [])) :
    qaStep s l = ExtState.mk s.pairs (pyStrip (pyReplace2 'Q' ':' l)) s.a := by
  rw [qaStep, if_pos hq, if_neg hnf]

theorem qaStep_aline (s : ExtState) (l : Str) (hq : isQLine l = false)
    (ha : isALine l = true) :
    qaStep s l =
      ExtState.mk s.pairs s.q (s.a ++ (pyStrip (pyReplace2 'A' ':' l) ++ [' '])) := by
  rw [qaStep, if_neg (by simp [hq]), if_pos ha]

theorem qaStep_other_append (s : ExtState) (l : Str) (hq : isQLine l = false)
    (ha : isALine l = false) (hne : s.a ≠ []) :
    qaStep s l = ExtState.mk s.pairs s.q (s.a ++ (pyStrip l ++ [' '])) := by
  rw [qaStep, if_neg (by simp [hq]), if_neg (by simp [ha]), if_pos hne]

theorem qaStep_other_nil (s : ExtState) (l : Str) (hq : isQLine l = false)
    (ha : isALine l = false) (hnil : s.a = []) :
    qaStep s l = s := by
  rw [qaStep, if_neg (by simp [hq]), if_neg (by simp [ha]),
    if_neg (fun hh => hh hnil)]

theorem qaStep_q_anil (s : ExtState) (l : Str) (hq : isQLine l = true)
    (hnil : s.a = []) :
    qaStep s l = ExtState.mk s.pairs (pyStrip (pyReplace2 'Q' ':' l)) [] := by
  rw [qaStep_q_nofin s l hq (fun hh => hh.2 hnil), hnil]

theorem qaFinish_anil (s : ExtState) (h : s.a = []) : qaFinish s = s.pairs := by
  rw [qaFinish, if_neg (fun hh => hh.2 h)]

theorem aline_not_qline (l : Str) (ha : isALine l = true) : isQLine l = false := by
  obtain ⟨t, htl⟩ := pyStartsWith_exists ['A', ':'] (pyStrip l) ha
  rw [isQLine, htl]
  simp [pyStartsWith]

/-! ## Claim C2 -/

/-- Claim C2, corrected.  Marker RECOGNITION is anchored (a line is a
question/answer line iff its trimmed form starts with `Q:`/`A:`), but the
text taken from the line is the line with EVERY occurrence of that same
marker removed, then trimmed.  Hence the claim's equation "text = remainder
after the leading marker, trimmed" holds exactly when the remainder contains
no later occurrence of the line's own marker (later occurrences of the
OTHER marker are preserved, as the equation shows verbatim). -/
theorem C2_theorem (s : ExtState) (line : Str) :
    (isQLine line = true →
      hasMarker 'Q' ':' ((pyStrip line).drop 2) = false →
      (qaStep s line).q = pyStrip ((pyStrip line).drop 2))
    ∧ (isALine line = true →
      hasMarker 'A' ':' ((pyStrip line).drop 2) = false →
      (qaStep s line).a = s.a ++ (pyStrip ((pyStrip line).drop 2) ++ [' '])) := by
  constructor
  · intro hq hnom
    have hget : (qaStep s line).q = pyStrip (pyReplace2 'Q' ':' line) := by
      by_cases hfin : s.q ≠ [] ∧ s.a ≠ []
      · rw [qaStep_q_fin s line hq hfin.1 hfin.2]
      · rw [qaStep_q_nofin s line hq hfin]
    rw [hget]
    exact marker_extract_eq 'Q' ':' (by decide) (by decide) line hq hnom
  · intro ha hnom
    have hq : isQLine line = false := aline_not_qline line ha
    rw [qaStep_aline s line hq ha]
    show s.a ++ (pyStrip (pyReplace2 'A' ':' line) ++ [' ']) = _
    rw [marker_extract_eq 'A' ':' (by decide) (by decide) line ha hnom]

/-- Witness for C2: a `Q:` line with no later `Q:` in its remainder; the
remainder (which contains an `A:` sequence, preserved verbatim) is taken
whole after the leading marker. -/
theorem C2_witness :
    (qaStep (ExtState.mk [] [] []) (("Q: hello A: there").data)).q =
      pyStrip ((pyStrip (("Q: hello A: there").data)).drop 2) :=
  (C2_theorem (ExtState.mk [] [] []) (("Q: hello A: there").data)).1
    (by decide) (by decide)

/-- Counterexample to C2 as stated: on the line
`"Q: What is Q: notation?"`, the source's `line.replace("Q:", "")` also
removes the SECOND `Q:`, so the stored question is `"What is  notation?"`
and not the remainder after the leading marker. -/
theorem C2_counterexample :
    (qaStep (ExtState.mk [] [] []) (("Q: What is Q: notation?").data)).q ≠
      pyStrip ((pyStrip (("Q: What is Q: notation?").data)).drop 2) ∧
    qaPairs (("Q: What is Q: notation?\nA: ok\n").data) =
      [(("What is  notation?").data, ("ok").data)] := by
  exact ⟨by decide, by decide⟩

/-! ## Claim C1 -/

theorem foldl_noA (lines : List Str) : ∀ out q0,
    (∀ l ∈ lines, isALine l = false) →
    (lines.foldl qaStep (ExtState.mk out q0 [])).pairs = out ∧
    (lines.foldl qaStep (ExtState.mk out q0 [])).a = [] := by
  induction lines with
  | nil => intro out q0 _; exact ⟨rfl, rfl⟩
  | cons l lines ih =>
    intro out q0 h
    have hl : isALine l = false := h l (List.mem_cons_self l lines)
    have hrest : ∀ x ∈ lines, isALine x = false :=
      fun x hx => h x (List.mem_cons_of_mem l hx)
    rw [List.foldl_cons]
    by_cases hq : isQLine l = true
    · rw [qaStep_q_anil (ExtState.mk out q0 []) l hq rfl]
      exact ih out _ hrest
    · rw [qaStep_other_nil (ExtState.mk out q0 []) l
        (by simpa using hq) hl rfl]
      exact ih out q0 hrest

/-- Claim C1, corrected.  The discard policy holds whenever no pending
answer text is in the accumulator: starting from any state whose answer
accumulator is empty, a run of lines with no `A:` line (however many
unanswered `Q:` lines it contains) contributes no pair, and the flush adds
nothing.  (As stated the claim is false: with orphan `A:` text pending, an
unanswered question is instead paired with that pending text — see the
counterexample.)  Scenario B holds as stated. -/
theorem C1_theorem :
    (∀ (out : List (Str × Str)) (q0 : Str) (lines : List Str),
        (∀ l ∈ lines, isALine l = false) →
        qaFinish (lines.foldl qaStep (ExtState.mk out q0 [])) = out)
    ∧ qaPairs (("Q: First?\nQ: Second?\nA: Only second answered.\n").data) =
        [(("Second?").data, ("Only second answered.").data)] := by
  constructor
  · intro out q0 lines h
    have h2 := foldl_noA lines out q0 h
    rw [qaFinish_anil _ h2.2, h2.1]
  · decide

/-- Witness for C1: two unanswered questions and a stray non-marker line
contribute nothing, from a state with a pending question and no pending
answer. -/
theorem C1_witness :
    qaFinish ([("Q: one?").data, ("stray line").data, ("Q: two?").data].foldl
      qaStep (ExtState.mk [] (("Seed?").data) [])) = [] :=
  C1_theorem.1 [] (("Seed?").data)
    [("Q: one?").data, ("stray line").data, ("Q: two?").data] (by decide)

/-- Counterexample to C1 as stated: in
`"A: orphan\nQ: First?\nQ: Second?\nA: x\n"` the question `First?` has no
`A:` line before the next `Q:` line, yet the extractor emits the pair
`("First?", "orphan")` for it (the orphan answer text was pending), so the
output has MORE pairs than there are answered questions. -/
theorem C1_counterexample :
    ¬ ((qaPairs (("A: orphan\nQ: First?\nQ: Second?\nA: x\n").data)).length ≤
        specAnsweredCount
          (splitLines (("A: orphan\nQ: First?\nQ: Second?\nA: x\n").data))) ∧
    qaPairs (("A: orphan\nQ: First?\nQ: Second?\nA: x\n").data) =
      [(("First?").data, ("orphan").data), (("Second?").data, ("x").data)] := by
  exact ⟨by decide, by decide⟩

/-! ## Claim C3 -/

theorem qaStep_inv (s : ExtState) (l : Str)
    (hpairs : ∀ p ∈ s.pairs, p.1 ≠ [] ∧ pyStrip p.1 = p.1 ∧ pyStrip p.2 = p.2)
    (hq : pyStrip s.q = s.q) :
    (∀ p ∈ (qaStep s l).pairs, p.1 ≠ [] ∧ pyStrip p.1 = p.1 ∧ pyStrip p.2 = p.2) ∧
    pyStrip (qaStep s l).q = (qaStep s l).q := by
  by_cases hql : isQLine l = true
  · by_cases hfin : s.q ≠ [] ∧ s.a ≠ []
    · rw [qaStep_q_fin s l hql hfin.1 hfin.2]
      refine ⟨?_, pyStrip_idem _⟩
      intro p hp
      rw [List.mem_append, List.mem_singleton] at hp
      rcases hp with hp | hp
      · exact hpairs p hp
      · subst hp
        refine ⟨?_, pyStrip_idem _, pyStrip_idem _⟩
        show pyStrip s.q ≠ []
        rw [hq]
        exact hfin.1
    · rw [qaStep_q_nofin s l hql hfin]
      exact ⟨hpairs, pyStrip_idem _⟩
  · have hql' : isQLine l = false := by simpa using hql
    by_cases hal : isALine l = true
    · rw [qaStep_aline s l hql' hal]
      exact ⟨hpairs, hq⟩
    · have hal' : isALine l = false := by simpa using hal
      by_cases hnil : s.a = []
      · rw [qaStep_other_nil s l hql' hal' hnil]
        exact ⟨hpairs, hq⟩
      · rw [qaStep_other_append s l hql' hal' hnil]
        exact ⟨hpairs, hq⟩

theorem foldl_inv (lines : List Str) : ∀ s : ExtState,
    (∀ p ∈ s.pairs, p.1 ≠ [] ∧ pyStrip p.1 = p.1 ∧ pyStrip p.2 = p.2) →
    pyStrip s.q = s.q →
    (∀ p ∈ (lines.foldl qaStep s).pairs,
      p.1 ≠ [] ∧ pyStrip p.1 = p.1 ∧ pyStrip p.2 = p.2) ∧
    pyStrip (lines.foldl qaStep s).q = (lines.foldl qaStep s).q := by
  induction lines with
  | nil => intro s hpairs hq; exact ⟨hpairs, hq⟩
  | cons l lines ih =>
    intro s hpairs hq
    rw [List.foldl_cons]
    have hstep := qaStep_inv s l hpairs hq
    exact ih (qaStep s l) hstep.1 hstep.2

theorem qaFinish_inv (s : ExtState)
    (hpairs : ∀ p ∈ s.pairs, p.1 ≠ [] ∧ pyStrip p.1 = p.1 ∧ pyStrip p.2 = p.2)
    (hq : pyStrip s.q = s.q) :
    ∀ p ∈ qaFinish s, p.1 ≠ [] ∧ pyStrip p.1 = p.1 ∧ pyStrip p.2 = p.2 := by
  intro p hp
  rw [qaFinish] at hp
  by_cases hfin : s.q ≠ [] ∧ s.a ≠ []
  · rw [if_pos hfin, List.mem_append, List.mem_singleton] at hp
    rcases hp with hp | hp
    · exact hpairs p hp
    · subst hp
      refine ⟨?_, pyStrip_idem _, pyStrip_idem _⟩
      show pyStrip s.q ≠ []
      rw [hq]
      exact hfin.1
  · rw [if_neg hfin] at hp
    exact hpairs p hp

/-- Claim C3, corrected.  Every emitted pair has a non-empty, fully trimmed
question (so in particular non-empty after trimming), and a fully trimmed
answer — but the answer CAN be empty: the truthiness check `if q and a`
runs before stripping, and an `A:` line with empty remainder leaves `a`
equal to a bare space, which strips to the empty string (see the
counterexample).  So only the question half of the claimed invariant
holds. -/
theorem C3_theorem (text : Str) (p : Str × Str) (hp : p ∈ qaPairs text) :
    p.1 ≠ [] ∧ pyStrip p.1 = p.1 ∧ pyStrip p.2 = p.2 := by
  have hinv := foldl_inv (splitLines text) (ExtState.mk [] [] [])
    (fun q hq => absurd hq (List.not_mem_nil q)) rfl
  exact qaFinish_inv _ hinv.1 hinv.2 p hp

/-- Witness for C3 at a concrete extraction. -/
theorem C3_witness :
    ("Hi?").data ≠ [] ∧ pyStrip (("Hi?").data) = ("Hi?").data ∧
      pyStrip (("x").data) = ("x").data :=
  C3_theorem (("Q: Hi?\nA: x\n").data) ((("Hi?").data, ("x").data)) (by decide)

/-- Counterexample to C3 as stated: `"Q: Hi?\nA:\n"` yields the single pair
`("Hi?", "")` whose answer is empty (empty after trimming), violating the
claimed invariant that both fields are non-empty after trimming. -/
theorem C3_counterexample :
    ¬ (∀ p ∈ qaPairs (("Q: Hi?\nA:\n").data), pyStrip p.2 ≠ []) ∧
    qaPairs (("Q: Hi?\nA:\n").data) = [(("Hi?").data, [])] := by
  exact ⟨by decide, by decide⟩

/-! ## Claim C9 -/

/-- Claim C9, corrected.  While an answer is in progress, EVERY non-marker
line — including an empty one — is appended as its trimmed content plus one
trailing space; an empty line therefore contributes a bare space, which
shows up as a second interior space when more answer text follows (and is
only invisible when nothing follows, thanks to the final trim).  The
multi-line Scenario C itself holds as stated. -/
theorem C9_theorem :
    (∀ (s : ExtState) (line : Str), isQLine line = false → isALine line = false →
        s.a ≠ [] → (qaStep s line).a = s.a ++ (pyStrip line ++ [' ']))
    ∧ qaPairs (("Q: Q1?\nA: Part one.\nPart two.\n").data) =
        [(("Q1?").data, ("Part one. Part two.").data)] := by
  constructor
  · intro s line hq ha hne
    rw [qaStep_other_append s line hq ha hne]
  · decide

/-- Witness for C9's continuation rule at a concrete state and line. -/
theorem C9_witness :
    (qaStep (ExtState.mk [] (("Q1?").data) (("x ").data)) (("part two").data)).a =
      ("x ").data ++ (pyStrip (("part two").data) ++ [' ']) :=
  C9_theorem.1 (ExtState.mk [] (("Q1?").data) (("x ").data)) (("part two").data)
    (by decide) (by decide) (by decide)

/-- Counterexample to C9 as stated: inserting an empty line mid-answer DOES
change the finally extracted answer — `"Q: Q1?\nA: x\n\ny\n"` yields
`"x  y"` (two interior spaces), while without the empty line the answer is
`"x y"`. -/
theorem C9_counterexample :
    qaPairs (("Q: Q1?\nA: x\n\ny\n").data) = [(("Q1?").data, ("x  y").data)] ∧
    qaPairs (("Q: Q1?\nA: x\ny\n").data) = [(("Q1?").data, ("x y").data)] ∧
    ("x  y").data ≠ ("x y").data := by
  exact ⟨by decide, by decide, by decide⟩

/-! ## Claim C10 -/

theorem qaStep_pairs_extend (s : ExtState) (l : Str) :
    ∃ ext, (qaStep s l).pairs = s.pairs ++ ext := by
  by_cases hql : isQLine l = true
  · by_cases hfin : s.q ≠ [] ∧ s.a ≠ []
    · rw [qaStep_q_fin s l hql hfin.1 hfin.2]
      exact ⟨[(pyStrip s.q, pyStrip s.a)], rfl⟩
    · rw [qaStep_q_nofin s l hql hfin]
      exact ⟨[], by rw [List.append_nil]⟩
  · have hql' : isQLine l = false := by simpa using hql
    by_cases hal : isALine l = true
    · rw [qaStep_aline s l hql' hal]
      exact ⟨[], by rw [List.append_nil]⟩
    · have hal' : isALine l = false := by simpa using hal
      by_cases hnil : s.a = []
      · rw [qaStep_other_nil s l hql' hal' hnil]
        exact ⟨[], by rw [List.append_nil]⟩
      · rw [qaStep_other_append s l hql' hal' hnil]
        exact ⟨[], by rw [List.append_nil]⟩

theorem foldl_pairs_extend (lines : List Str) : ∀ s : ExtState,
    ∃ ext, (lines.foldl qaStep s).pairs = s.pairs ++ ext := by
  induction lines with
  | nil => intro s; exact ⟨[], by rw [List.foldl_nil, List.append_nil]⟩
  | cons l lines ih =>
    intro s
    rw [List.foldl_cons]
    obtain ⟨e1, he1⟩ := qaStep_pairs_extend s l
    obtain ⟨e2, he2⟩ := ih (qaStep s l)
    exact ⟨e1 ++ e2, by rw [he2, he1, List.append_assoc]⟩

theorem foldl_inert (pre : List Str) : ∀ s : ExtState,
    (∀ l ∈ pre, isQLine l = false ∧ isALine l = false) → s.a = [] →
    pre.foldl qaStep s = s := by
  induction pre with
  | nil => intro s _ _; rfl
  | cons l pre ih =>
    intro s h hnil
    have hl := h l (List.mem_cons_self l pre)
    rw [List.foldl_cons, qaStep_other_nil s l hl.1 hl.2 hnil]
    exact ih s (fun x hx => h x (List.mem_cons_of_mem l hx)) hnil

theorem orphan_run (lines : List Str) : ∀ (s : ExtState) (pfx : Str),
    s.pairs = [] → (∃ w, s.a = pfx ++ w) →
    (((lines.foldl qaStep s).pairs = [] ∧
        ∃ w, (lines.foldl qaStep s).a = pfx ++ w)
      ∨ (∃ q1 araw ext, (lines.foldl qaStep s).pairs = (q1, pyStrip araw) :: ext ∧
          ∃ w, araw = pfx ++ w)) := by
  induction lines with
  | nil => intro s pfx hp ha; exact Or.inl ⟨hp, ha⟩
  | cons l lines ih =>
    intro s pfx hp ha
    rw [List.foldl_cons]
    by_cases hql : isQLine l = true
    · by_cases hfin : s.q ≠ [] ∧ s.a ≠ []
      · rw [qaStep_q_fin s l hql hfin.1 hfin.2]
        obtain ⟨ext, hext⟩ := foldl_pairs_extend lines
          (ExtState.mk (s.pairs ++ [(pyStrip s.q, pyStrip s.a)])
            (pyStrip (pyReplace2 'Q' ':' l)) [])
        right
        refine ⟨pyStrip s.q, s.a, ext, ?_, ha⟩
        rw [hext]
        show (s.pairs ++ [(pyStrip s.q, pyStrip s.a)]) ++ ext = _
        rw [hp, List.nil_append, List.singleton_append]
      · rw [qaStep_q_nofin s l hql hfin]
        exact ih (ExtState.mk s.pairs (pyStrip (pyReplace2 'Q' ':' l)) s.a)
          pfx hp ha
    · have hql' : isQLine l = false := by simpa using hql
      by_cases hal : isALine l = true
      · rw [qaStep_aline s l hql' hal]
        refine ih _ pfx hp ?_
        obtain ⟨w, hw⟩ := ha
        exact ⟨w ++ (pyStrip (pyReplace2 'A' ':' l) ++ [' ']),
          by show s.a ++ _ = _; rw [hw, List.append_assoc]⟩
      · have hal' : isALine l = false := by simpa using hal
        by_cases hnil : s.a = []
        · rw [qaStep_other_nil s l hql' hal' hnil]
          exact ih s pfx hp ha
        · rw [qaStep_other_append s l hql' hal' hnil]
          refine ih _ pfx hp ?_
          obtain ⟨w, hw⟩ := ha
          exact ⟨w ++ (pyStrip l ++ [' ']),
            by show s.a ++ _ = _; rw [hw, List.append_assoc]⟩

theorem orphan_finish (s : ExtState) (pfx : Str)
    (h : (s.pairs = [] ∧ ∃ w, s.a = pfx ++ w)
      ∨ (∃ q1 araw ext, s.pairs = (q1, pyStrip araw) :: ext ∧
          ∃ w, araw = pfx ++ w)) :
    ∀ p ps, qaFinish s = p :: ps →
      ∃ araw, p.2 = pyStrip araw ∧ ∃ w, araw = pfx ++ w := by
  intro p ps hout
  rw [qaFinish] at hout
  rcases h with ⟨hp, hw⟩ | ⟨q1, araw, ext, hpr, hw⟩
  · by_cases hfin : s.q ≠ [] ∧ s.a ≠ []
    · rw [if_pos hfin, hp, List.nil_append] at hout
      have hpp : p = (pyStrip s.q, pyStrip s.a) := (List.cons.injEq _ _ _ _ ▸ hout).1.symm
      exact ⟨s.a, by rw [hpp], hw⟩
    · rw [if_neg hfin, hp] at hout
      cases hout
  · by_cases hfin : s.q ≠ [] ∧ s.a ≠ []
    · rw [if_pos hfin, hpr, List.cons_append] at hout
      have hpp : p = (q1, pyStrip araw) := (List.cons.injEq _ _ _ _ ▸ hout).1.symm
      exact ⟨araw, by rw [hpp], hw⟩
    · rw [if_neg hfin, hpr] at hout
      have hpp : p = (q1, pyStrip araw) := (List.cons.injEq _ _ _ _ ▸ hout).1.symm
      exact ⟨araw, by rw [hpp], hw⟩

theorem strip_pfx_pres (o ar : Str) (ho : pyStrip o = o)
    (h : ∃ w, ar = (o ++ [' ']) ++ w) :
    ∃ w2, pyStrip ar = o ++ w2 := by
  obtain ⟨w, hw⟩ := h
  cases o with
  | nil => exact ⟨pyStrip ar, by rw [List.nil_append]⟩
  | cons c o' =>
    obtain ⟨hl, hr⟩ := pyStrip_parts (c :: o') ho
    have hc : pyIsSpace c = false := ltrim_cons_eq_self c o' hl
    have har : ar = c :: (o' ++ (' ' :: w)) := by
      rw [hw]
      simp
    have hlt : ltrim ar = ar := by
      rw [har]
      exact ltrim_cons_nospace c _ hc
    have har2 : ar = (c :: o') ++ (' ' :: w) := by
      rw [hw]
      simp
    rw [pyStrip, hlt, har2, rtrim_append_eq]
    by_cases h0 : rtrim (' ' :: w) = []
    · rw [if_pos h0, hr]
      exact ⟨[], by rw [List.append_nil]⟩
    · rw [if_neg h0]
      exact ⟨rtrim (' ' :: w), rfl⟩

/-- Claim C10, corrected.  When `A:` lines precede the first `Q:` line, the
orphan answer text is retained in the accumulator, and IF the extractor
emits at least one pair, the orphan text (trimmed remainder of the first
orphan `A:` line) is a prefix of the first emitted pair's answer.  But the
claim's unconditional "is not discarded" is false: when no pair is ever
finalized (e.g. the only `Q:` line has an empty remainder), the orphan text
is discarded with everything else — see the counterexample. -/
theorem C10_theorem (pre : List Str) (fa : Str) (rest : List Str)
    (hpre : ∀ l ∈ pre, isQLine l = false ∧ isALine l = false)
    (hfa : isALine fa = true) :
    ∀ p ps, qaPairsOfLines (pre ++ fa :: rest) = p :: ps →
      ∃ w, p.2 = pyStrip (pyReplace2 'A' ':' fa) ++ w := by
  intro p ps hout
  rw [qaPairsOfLines, List.foldl_append,
    foldl_inert pre (ExtState.mk [] [] []) hpre rfl, List.foldl_cons,
    qaStep_aline (ExtState.mk [] [] []) fa (aline_not_qline fa hfa) hfa] at hout
  have horun := orphan_run rest
    (ExtState.mk [] [] ([] ++ (pyStrip (pyReplace2 'A' ':' fa) ++ [' '])))
    (pyStrip (pyReplace2 'A' ':' fa) ++ [' ']) rfl ⟨[], by simp⟩
  obtain ⟨araw, hp2, hw⟩ := orphan_finish _ _ horun p ps hout
  obtain ⟨w2, hw2⟩ := strip_pfx_pres (pyStrip (pyReplace2 'A' ':' fa)) araw
    (pyStrip_idem _) hw
  exact ⟨w2, by rw [hp2, hw2]⟩

/-- Witness for C10: one orphan `A:` line followed by one answered-by-orphan
question; the orphan text is (here, the whole of) the first pair's answer. -/
theorem C10_witness :
    ∃ w, ("orphan").data = pyStrip (pyReplace2 'A' ':' (("A: orphan").data)) ++ w :=
  C10_theorem [] (("A: orphan").data) [("Q: Hi?").data]
    (fun l hl => absurd hl (List.not_mem_nil l)) (by decide)
    ((("Hi?").data, ("orphan").data)) [] (by decide)

/-- Counterexample to C10 as stated: `"A: orphan\nQ:\n"` has an `A:` line
before the first `Q:` line, yet the extractor emits NO pair at all — the
orphan answer text is discarded, and there is no "first finalized pair" for
it to prefix. -/
theorem C10_counterexample :
    isALine (("A: orphan").data) = true ∧ isQLine (("Q:").data) = true ∧
    qaPairs (("A: orphan\nQ:\n").data) = [] := by
  exact ⟨by decide, by decide, by decide⟩

/-! ## Claim C4 -/

theorem progressEmissions_getD (n t i : Nat) (hi : i < min n t) :
    (progressEmissions n t).getD i 0 = 100 * (i + 1) / n := by
  have hlen : i < ((List.range (min n t)).map
      (fun i => progressValue (i + 1) n)).length := by
    simpa using hi
  rw [progressEmissions, List.getD_eq_getElem _ _ hlen]
  simp [progressValue]

/-- Claim C4, corrected.  The source truncates: the value emitted after the
pair at index `i` is `int(((i+1)/n)*100)`, i.e. `⌊100(i+1)/n⌋`, not
`round` (e.g. at `i = 1`, `n = 3` it shows 66 where rounding gives 67 —
see the counterexample).  The rest of the claim survives: the emitted
sequence is monotonically non-decreasing, and when the pool is at least
`questionCount` (which the source's slider bound `3 ≤ n ≤ min(15, total)`
guarantees), the value emitted after the last pair is exactly 100. -/
theorem C4_theorem :
    (∀ n t i, i < min n t →
        (progressEmissions n t).getD i 0 = 100 * (i + 1) / n)
    ∧ (∀ n k k2, k ≤ k2 → progressValue k n ≤ progressValue k2 n)
    ∧ (∀ n t, 0 < n → n ≤ t →
        (progressEmissions n t).getD (min n t - 1) 0 = 100) := by
  refine ⟨progressEmissions_getD, ?_, ?_⟩
  · intro n k k2 h
    exact Nat.div_le_div_right (Nat.mul_le_mul_left 100 h)
  · intro n t h0 hnt
    have hmin : min n t = n := min_eq_left hnt
    have hi : min n t - 1 < min n t := by omega
    rw [progressEmissions_getD n t (min n t - 1) hi, hmin]
    have : n - 1 + 1 = n := by omega
    rw [this, Nat.mul_div_cancel 100 h0]

/-- Witness for C4 at `n = 3`, `t = 5` (and `n = t = 3` for the terminal
value). -/
theorem C4_witness :
    (progressEmissions 3 5).getD 1 0 = 100 * 2 / 3 ∧
    progressValue 1 3 ≤ progressValue 2 3 ∧
    (progressEmissions 3 3).getD (min 3 3 - 1) 0 = 100 :=
  ⟨C4_theorem.1 3 5 1 (by decide), C4_theorem.2.1 3 1 2 (by decide),
    C4_theorem.2.2 3 3 (by decide) (by decide)⟩

/-- Counterexample to C4 as stated: after the pair at index 1 of a
3-question session the source emits `int((2/3)*100) = 66`, while the
claimed `round((2/3)*100)` is 67. -/
theorem C4_counterexample :
    (progressEmissions 3 3).getD 1 0 = 66 ∧ specRoundProgress 2 3 = 67 ∧
    (66 : Nat) ≠ 67 := by
  exact ⟨by decide, by decide, by decide⟩

/-! ## Claims C5, C6, C7, C8 -/

theorem speak_not_raised (e : SpeakEnv) (h : e.gttsFails = false) :
    (speak e).res ≠ SpeakRes.raised := by
  cases e with
  | mk g d sp ex pl =>
    simp only at h
    subst h
    revert d sp ex pl
    decide

theorem uttAborts_false_of_gtts (cfg : VoiceCfg) (u : UttEnv)
    (h : u.std.gttsFails = false) :
    uttAborts (narrateUtterance cfg u) = false := by
  rw [narrateUtterance]
  by_cases hc : (cfg.useAiVoice && cfg.elevenLabsAvailable) = true
  · rw [if_pos hc]
    rfl
  · rw [if_neg hc]
    have hnr := speak_not_raised u.std h
    cases hres : (speak u.std).res with
    | played => simp [uttAborts, hres]
    | warned => simp [uttAborts, hres]
    | raised => exact absurd hres hnr

theorem runFrom_ok (cfg : VoiceCfg) (envs : Nat → StepEnv) (n : Nat)
    (h : ∀ i, (envs i).qEnv.std.gttsFails = false ∧
        (envs i).aEnv.std.gttsFails = false) :
    ∀ (lst : List (Str × Str)) (i : Nat),
      (runFrom cfg envs n i lst).aborted = false ∧
      (runFrom cfg envs n i lst).processed = lst.length := by
  intro lst
  induction lst with
  | nil => intro i; exact ⟨rfl, rfl⟩
  | cons p rest ih =>
    intro i
    have h1 := uttAborts_false_of_gtts cfg ((envs i).qEnv) (h i).1
    have h2 := uttAborts_false_of_gtts cfg ((envs i).aEnv) (h i).2
    have hih := ih (i + 1)
    simp only [runFrom, h1, h2, Bool.false_eq_true, if_false, List.length_cons]
    exact ⟨hih.1, by rw [hih.2]⟩

/-- Claim C5, corrected.  All failures inside `speak`'s `try` block (decode,
speed-up, export, playback) and every premium-path failure are caught at the
point of use, produce a warning, and never abort the session loop: with no
gTTS failure the whole loop completes.  But the claim's "for any cause,
including failure of the underlying text-to-speech call itself" is false:
the gTTS call sits BEFORE the `try` in `speak`, so its failure propagates
and aborts the run — see the counterexample. -/
theorem C5_theorem :
    (∀ e : SpeakEnv, e.gttsFails = false → (speak e).res ≠ SpeakRes.raised)
    ∧ (∀ (cfg : VoiceCfg) (u : UttEnv), cfg.useAiVoice = true →
        cfg.elevenLabsAvailable = true →
        uttAborts (narrateUtterance cfg u) = false)
    ∧ (∀ (cfg : VoiceCfg) (envs : Nat → StepEnv) (pairs : List (Str × Str))
        (n : Nat),
        (∀ i, (envs i).qEnv.std.gttsFails = false ∧
            (envs i).aEnv.std.gttsFails = false) →
        (runSession cfg envs pairs n).aborted = false) := by
  refine ⟨speak_not_raised, ?_, ?_⟩
  · intro cfg u h1 h2
    rw [narrateUtterance, if_pos (by rw [h1, h2]; rfl)]
    rfl
  · intro cfg envs pairs n h
    exact (runFrom_ok cfg envs n h (sessionPairs pairs n) 0).1

/-- Witness for C5: a session whose utterances fail at decode and playback
(but not at gTTS) still completes. -/
theorem C5_witness :
    (speak (SpeakEnv.mk false true true true true)).res ≠ SpeakRes.raised ∧
    (runSession (VoiceCfg.mk false false)
      (fun _ => StepEnv.mk
        (UttEnv.mk false (SpeakEnv.mk false true false false false))
        (UttEnv.mk false (SpeakEnv.mk false false false false true)))
      [(('q' :: []), ('a' :: []))] 1).aborted = false :=
  ⟨C5_theorem.1 (SpeakEnv.mk false true true true true) rfl,
    C5_theorem.2.2 (VoiceCfg.mk false false)
      (fun _ => StepEnv.mk
        (UttEnv.mk false (SpeakEnv.mk false true false false false))
        (UttEnv.mk false (SpeakEnv.mk false false false false true)))
      [(('q' :: []), ('a' :: []))] 1 (fun _ => ⟨rfl, rfl⟩)⟩

/-- Counterexample to C5 as stated: a gTTS failure on the very first
utterance of a standard-voice session propagates out of `speak` and aborts
the session loop. -/
theorem C5_counterexample :
    (runSession (VoiceCfg.mk false false)
      (fun _ => StepEnv.mk
        (UttEnv.mk false (SpeakEnv.mk true false false false false))
        (UttEnv.mk false (SpeakEnv.mk false false false false false)))
      [(('q' :: []), ('a' :: []))] 1).aborted = true ∧
    (speak (SpeakEnv.mk true false false false false)).res = SpeakRes.raised := by
  exact ⟨by decide, by decide⟩

/-- Claim C6, corrected.  The fallback to the Standard variant exists ONLY
for import-time unavailability: when the toggle is on but `ELEVENLABS_AVAILABLE`
is false, the call-site condition routes the utterance to `speak`.  When the
library IS available and synthesis fails at run time (missing credential,
network), `speak_ai` catches the error and warns, but no Standard-variant
call is made for that utterance — the utterance is silently skipped. -/
theorem C6_theorem :
    (∀ (cfg : VoiceCfg) (u : UttEnv), cfg.useAiVoice = true →
        cfg.elevenLabsAvailable = false →
        usedStandard (narrateUtterance cfg u) = true)
    ∧ (∀ (cfg : VoiceCfg) (u : UttEnv), cfg.useAiVoice = true →
        cfg.elevenLabsAvailable = true → u.aiFails = true →
        narrateUtterance cfg u = UttOutcome.premium AiRes.warnedError) := by
  constructor
  · intro cfg u h1 h2
    rw [narrateUtterance, if_neg (by rw [h1, h2]; exact Bool.false_ne_true)]
    rfl
  · intro cfg u h1 h2 h3
    rw [narrateUtterance, if_pos (by rw [h1, h2]; rfl), h2, speak_ai, h3]
    rfl

/-- Witness for C6's two branches at concrete configurations. -/
theorem C6_witness :
    usedStandard (narrateUtterance (VoiceCfg.mk true false)
      (UttEnv.mk true (SpeakEnv.mk false false false false false))) = true ∧
    narrateUtterance (VoiceCfg.mk true true)
      (UttEnv.mk true (SpeakEnv.mk false false false false false)) =
      UttOutcome.premium AiRes.warnedError :=
  ⟨C6_theorem.1 (VoiceCfg.mk true false)
      (UttEnv.mk true (SpeakEnv.mk false false false false false)) rfl rfl,
    C6_theorem.2 (VoiceCfg.mk true true)
      (UttEnv.mk true (SpeakEnv.mk false false false false false)) rfl rfl rfl⟩

/-- Counterexample to C6 as stated: with the premium voice selected and
available, a synthesis-time failure does NOT fall back to the Standard
variant — no `speak` call happens for that utterance. -/
theorem C6_counterexample :
    usedStandard (narrateUtterance (VoiceCfg.mk true true)
      (UttEnv.mk true (SpeakEnv.mk false false false false false))) = false := by
  decide

/-- Claim C7, corrected.  The temp file IS deleted on every exit path that
reaches the `try` block: on success and on failure of decoding,
speed-adjustment, export, or playback.  But a failure of the synthesis step
itself (`gTTS`/`tts.save`, which run before the `try`) skips the
`finally: os.remove`, so the temp file survives `speak` — the claimed
"every exit path, including failure at any point of the synthesis" is
false (see the counterexample). -/
theorem C7_theorem (e : SpeakEnv) (h : e.gttsFails = false) :
    (speak e).tempDeleted = true := by
  cases e with
  | mk g d sp ex pl =>
    simp only at h
    subst h
    revert d sp ex pl
    decide

/-- Witness for C7: all four in-`try` steps fail, yet the temp file is
removed before `speak` returns. -/
theorem C7_witness :
    (speak (SpeakEnv.mk false true true true true)).tempDeleted = true :=
  C7_theorem (SpeakEnv.mk false true true true true) rfl

/-- Counterexample to C7 as stated: when the gTTS synthesis call raises,
`speak` exits without deleting the temporary file. -/
theorem C7_counterexample :
    (speak (SpeakEnv.mk true false false false false)).tempDeleted = false := by
  decide

/-- Claim C8, confirmed (for runs the loop completes, i.e. absent the
uncaught gTTS failure of C5): the loop iterates over `qa_pairs[:num_questions]`,
so the session processes exactly `min(questionCount, totalPairs)` pairs —
never more, and never fewer than `questionCount` unless the pool is
smaller. -/
theorem C8_theorem (cfg : VoiceCfg) (envs : Nat → StepEnv)
    (pairs : List (Str × Str)) (n : Nat)
    (h : ∀ i, (envs i).qEnv.std.gttsFails = false ∧
        (envs i).aEnv.std.gttsFails = false) :
    (runSession cfg envs pairs n).processed = min n pairs.length ∧
    (sessionPairs pairs n).length = min n pairs.length ∧
    (runSession cfg envs pairs n).aborted = false := by
  have hr := runFrom_ok cfg envs n h (sessionPairs pairs n) 0
  have hlen : (sessionPairs pairs n).length = min n pairs.length :=
    List.length_take n pairs
  refine ⟨?_, hlen, hr.1⟩
  rw [runSession, hr.2, hlen]

/-- Witness for C8: a pool of 2 pairs with `questionCount = 5` processes
exactly `min 5 2 = 2` pairs. -/
theorem C8_witness :
    (runSession (VoiceCfg.mk false false)
      (fun _ => StepEnv.mk
        (UttEnv.mk false (SpeakEnv.mk false false false false false))
        (UttEnv.mk false (SpeakEnv.mk false false false false false)))
      [(('q' :: []), ('a' :: [])), (('r' :: []), ('b' :: []))] 5).processed =
      min 5 2 :=
  (C8_theorem (VoiceCfg.mk false false)
    (fun _ => StepEnv.mk
      (UttEnv.mk false (SpeakEnv.mk false false false false false))
      (UttEnv.mk false (SpeakEnv.mk false false false false false)))
    [(('q' :: []), ('a' :: [])), (('r' :: []), ('b' :: []))] 5
    (fun _ => ⟨rfl, rfl⟩)).1
